import Mathlib

/-!
Shallow embedding of the ST7701 display driver from `src/display/st7701.rs`
and its caller in `src/main.rs`.

The driver sends 9-bit frames (one control bit plus one payload byte) to the
panel over one of two transports:

* a hardware SPI peripheral (`impl SpiProvider for Spi`), where `ser`
  packs the frame into the upper 9 bits of a 16-bit command word; and
* a bit-banged transport (`impl SpiProvider for ManualSpi`) that toggles
  chip-select, clock and data lines directly.

Machine integers are modelled as `Nat` with explicit `% 256` (u8) and the
16-bit packing arithmetic spelled out; GPIO activity is modelled as an
explicit event trace, and line levels / sampled values are recovered from
the trace by small analyzers.
-/

set_option maxRecDepth 100000

namespace St7701

/-! ### Hardware transport serialization (`ser`, st7701.rs lines 17-24) -/

/-- The control bit: `(!is_command as u16)` — 0 for a command, 1 for data. -/
def cbit (is_command : Bool) : Nat :=
  if is_command then 0 else 1

/-- `ser` from st7701.rs: `first_bit = (!is_command as u16) << 15`,
`data = (byte as u16) << 7 | first_bit`.  The result is the 16-bit payload
of `Command::_9Bit`, with the 9-bit frame left-aligned (bits 15..7).
The `% 256` embeds the `u8` argument. -/
def ser (is_command : Bool) (byte : Nat) : Nat :=
  ((byte % 256) <<< 7) ||| (cbit is_command <<< 15)

/-- The 9-bit word carried by the 16-bit value produced by `ser`:
its upper 9 bits. -/
def serWord (is_command : Bool) (byte : Nat) : Nat :=
  ser is_command byte >>> 7

/-- Hardware transport `write_command` (st7701.rs lines 77-85): one
transaction with word `ser(true, instruction)`. -/
def Spi.commandWord (instruction : Nat) : Nat :=
  ser true instruction

/-- Hardware transport `write_data` (st7701.rs lines 87-93): one
transaction per byte, each with word `ser(false, byte)`. -/
def Spi.dataWords (data : List Nat) : List Nat :=
  data.map (fun byte => ser false byte)

theorem cbit_le_one (ic : Bool) : cbit ic ≤ 1 := by
  cases ic <;> simp [cbit]

theorem ser_fin : ∀ (m : Fin 256) (ic : Bool),
    ser ic m.val = cbit ic * 32768 + m.val * 128 := by
  decide

theorem ser_eq_arith (ic : Bool) (b : Nat) :
    ser ic b = cbit ic * 32768 + (b % 256) * 128 := by
  have hb : b % 256 < 256 := Nat.mod_lt _ (by norm_num)
  have hmm : b % 256 % 256 = b % 256 := by omega
  have h := ser_fin ⟨b % 256, hb⟩ ic
  simpa [ser, hmm] using h

theorem serWord_eq_arith (ic : Bool) (b : Nat) :
    serWord ic b = cbit ic * 256 + b % 256 := by
  have hb : b % 256 < 256 := Nat.mod_lt _ (by norm_num)
  rw [serWord, ser_eq_arith, Nat.shiftRight_eq_div_pow]
  have : cbit ic * 32768 + b % 256 * 128 = (cbit ic * 256 + b % 256) * 2 ^ 7 := by
    ring
  rw [this, Nat.mul_div_cancel _ (by norm_num)]

theorem word_or_fin : ∀ (m : Fin 256) (ic : Bool),
    (cbit ic <<< 8) ||| m.val = cbit ic * 256 + m.val := by
  decide

/-- **C1.** The hardware-transport serialization `ser` packs each byte into a
single fixed-width 9-bit word (carried left-aligned in the 16-bit value of
`Command::_9Bit`, so the word is the value's upper 9 bits): the word equals
`(control_bit <<< 8) ||| byte`, the control bit is its most significant bit
(bit 8), and the 8 payload bits occupy the lower 8 positions. -/
theorem ser_word_layout (ic : Bool) (b : Nat) :
    serWord ic b = (cbit ic <<< 8) ||| (b % 256)
    ∧ ser ic b = serWord ic b <<< 7
    ∧ serWord ic b < 2 ^ 9
    ∧ (serWord ic b).testBit 8 = !ic
    ∧ serWord ic b % 2 ^ 8 = b % 256 := by
  have hb : b % 256 < 256 := Nat.mod_lt _ (by norm_num)
  have hw := serWord_eq_arith ic b
  have hc : cbit ic ≤ 1 := cbit_le_one ic
  refine ⟨?_, ?_, ?_, ?_, ?_⟩
  · rw [hw, word_or_fin ⟨b % 256, hb⟩ ic]
  · rw [ser_eq_arith, hw, Nat.shiftLeft_eq]
    ring
  · omega
  · rw [hw]
    have h256 : b % 256 < 2 ^ 8 := hb
    have heq : cbit ic * 256 + b % 256 = 2 ^ 8 * cbit ic + b % 256 := by ring
    rw [heq, Nat.testBit_mul_pow_two_add (cbit ic) h256 8]
    cases ic <;> simp [cbit]
  · omega

/-- **C2.** The hardware transport's `write_command` serializes its opcode
byte with control bit 0, and `write_data` serializes every data byte with
control bit 1 (the control bit being the most significant bit of the
transmitted frame, bit 15 of the left-aligned 16-bit value, equivalently
bit 8 of the 9-bit word). -/
theorem control_bit_command_data (c : Nat) (ds : List Nat) :
    (Spi.commandWord c).testBit 15 = false
    ∧ (serWord true c).testBit 8 = false
    ∧ (∀ w ∈ Spi.dataWords ds, w.testBit 15 = true)
    ∧ (∀ d : Nat, (serWord false d).testBit 8 = true) := by
  refine ⟨?_, ?_, ?_, ?_⟩
  · have h : Spi.commandWord c = c % 256 * 128 := by
      rw [Spi.commandWord, ser_eq_arith]; simp [cbit]
    have : Spi.commandWord c < 2 ^ 15 := by
      rw [h]; have := Nat.mod_lt c (show 0 < 256 by norm_num); omega
    exact Nat.testBit_eq_false_of_lt this
  · exact (ser_word_layout true c).2.2.2.1
  · intro w hw
    rcases List.mem_map.mp hw with ⟨d, _, rfl⟩
    have hd : d % 256 * 128 < 2 ^ 15 := by
      have := Nat.mod_lt d (show 0 < 256 by norm_num); omega
    have harith : ser false d = 2 ^ 15 * 1 + d % 256 * 128 := by
      rw [ser_eq_arith]; simp [cbit]
    rw [harith, Nat.testBit_mul_pow_two_add 1 hd 15]
    simp
  · intro d
    exact (ser_word_layout false d).2.2.2.1

/-! ### Bit-banged transport (`ManualSpi`) as a GPIO event trace

Every GPIO/delay side effect of `ManualSpi` is recorded as one event; line
levels and sampled values are recovered from the trace by analyzers below. -/

inductive Ev : Type
  | csLow
  | csHigh
  | sdaOutput
  | sdaLow
  | sdaHigh
  | sclLow
  | sclHigh
  | delayNs (n : Nat)
  | delayMs (n : Nat)
deriving DecidableEq

/-- The `for _ in 0..u8::BITS` loop of `ManualSpi::write_byte`
(st7701.rs lines 125-139): per bit, `delay_ns(100)`, clock low, data line
set to the byte's current MSB (`data & MSB_MASK == MSB_MASK`), clock high,
then `data <<= 1` with u8 wraparound. -/
def writeByteLoop : Nat → Nat → List Ev
  | 0, _ => []
  | n + 1, data =>
    Ev.delayNs 100 :: Ev.sclLow ::
      (if data &&& 128 == 128 then Ev.sdaHigh else Ev.sdaLow) ::
        Ev.sclHigh :: writeByteLoop n ((data <<< 1) % 256)

/-- GPIO trace of `ManualSpi::write_byte` (st7701.rs lines 111-146):
configure the data line as output, clock low, drive the control bit
(low = command, high = data), clock high, the 8-bit loop, then a final
`delay_ns(100)` and clock high.  `% 256` embeds the `u8` argument. -/
def writeByteTrace (is_command : Bool) (byte : Nat) : List Ev :=
  Ev.sdaOutput :: Ev.sclLow ::
    (if is_command then Ev.sdaLow else Ev.sdaHigh) ::
      Ev.sclHigh :: (writeByteLoop 8 (byte % 256) ++ [Ev.delayNs 100, Ev.sclHigh])

/-- Values on the data line at each rising edge of the clock, walking a
trace from given initial clock and data levels (`true` = high). -/
def samples : Bool → Bool → List Ev → List Bool
  | _, _, [] => []
  | scl, sda, e :: r =>
    match e with
    | Ev.sclHigh => if scl then samples true sda r else sda :: samples true sda r
    | Ev.sclLow => samples false sda r
    | Ev.sdaHigh => samples scl true r
    | Ev.sdaLow => samples scl false r
    | _ => samples scl sda r

/-- Number of low-to-high clock transitions in a trace. -/
def risingEdges : Bool → List Ev → Nat
  | _, [] => 0
  | scl, e :: r =>
    match e with
    | Ev.sclHigh => (if scl then 0 else 1) + risingEdges true r
    | Ev.sclLow => risingEdges false r
    | _ => risingEdges scl r

/-- Clock level after a trace has been replayed. -/
def finalScl : Bool → List Ev → Bool
  | scl, [] => scl
  | scl, e :: r =>
    match e with
    | Ev.sclHigh => finalScl true r
    | Ev.sclLow => finalScl false r
    | _ => finalScl scl r

/-- The byte's bits, most significant first. -/
def bitsMsb (b : Nat) : List Bool :=
  [b.testBit 7, b.testBit 6, b.testBit 5, b.testBit 4,
   b.testBit 3, b.testBit 2, b.testBit 1, b.testBit 0]

theorem samples_writeByte_fin : ∀ (m : Fin 256) (ic scl0 sda0 : Bool),
    samples scl0 sda0 (writeByteTrace ic m.val) = (!ic) :: bitsMsb m.val := by
  decide

theorem clocking_writeByte_fin : ∀ (m : Fin 256) (ic scl0 : Bool),
    risingEdges scl0 (writeByteTrace ic m.val) = 9
    ∧ finalScl scl0 (writeByteTrace ic m.val) = true := by
  decide

theorem writeByteTrace_mod (ic : Bool) (b : Nat) :
    writeByteTrace ic b = writeByteTrace ic (b % 256) := by
  have hmm : b % 256 % 256 = b % 256 := by omega
  simp [writeByteTrace, hmm]

/-- **C3.** Bit-banged `write_byte`: the value sampled at the first clock
rising edge is the control level (low for a command, high for data), and the
next 8 rising edges sample the payload byte's bits most-significant first —
in particular, sending the data byte `0b1010_1010` yields the sampled
sequence `[1, 1,0,1,0,1,0,1,0]`.  This holds from any initial clock/data
levels. -/
theorem write_byte_bit_order (scl0 sda0 ic : Bool) (b : Nat) :
    samples scl0 sda0 (writeByteTrace ic b) = (!ic) :: bitsMsb (b % 256)
    ∧ samples scl0 sda0 (writeByteTrace false 0b10101010)
      = [true, true, false, true, false, true, false, true, false] := by
  constructor
  · have hb : b % 256 < 256 := Nat.mod_lt _ (by norm_num)
    have h := samples_writeByte_fin ⟨b % 256, hb⟩ ic scl0 sda0
    rw [writeByteTrace_mod]
    exact h
  · have h := samples_writeByte_fin ⟨170, by norm_num⟩ false scl0 sda0
    rw [show samples scl0 sda0 (writeByteTrace false 170)
          = (!false) :: bitsMsb 170 from h]
    decide

/-- **C10.** Bit-banged `write_byte`, for every flag and byte: the data line
is configured as an output before anything else (in particular before any
clock transition), exactly 9 clock rising edges are produced (one for the
control bit, one per payload bit), and the clock line is left high on
return — from any initial clock level. -/
theorem write_byte_clock_discipline (ic : Bool) (b : Nat) (scl0 : Bool) :
    (writeByteTrace ic b).head? = some Ev.sdaOutput
    ∧ risingEdges scl0 (writeByteTrace ic b) = 9
    ∧ finalScl scl0 (writeByteTrace ic b) = true := by
  have hb : b % 256 < 256 := Nat.mod_lt _ (by norm_num)
  have h := clocking_writeByte_fin ⟨b % 256, hb⟩ ic scl0
  refine ⟨rfl, ?_, ?_⟩
  · rw [writeByteTrace_mod]; exact h.1
  · rw [writeByteTrace_mod]; exact h.2

/-! ### `SpiProvider` for `ManualSpi`: calls as (trace, result) pairs -/

/-- Rust `core::convert::Infallible`: an uninhabited error type. -/
inductive Infallible : Type

namespace ManualSpi

/-- `ManualSpi::write_byte` (st7701.rs lines 111-146): emits its GPIO trace
and always returns `Ok(())`. -/
def write_byte (is_command : Bool) (byte : Nat) :
    List Ev × Except Infallible Unit :=
  (writeByteTrace is_command byte, Except.ok ())

/-- `ManualSpi`'s `while_cs` override (st7701.rs lines 99-109): chip-select
low, `delay_ms(1)`, run the closure (here: its already-recorded effect),
`delay_ms(1)`, chip-select high, and return the closure's result
unchanged. -/
def while_cs {R : Type} (func : List Ev × R) : List Ev × R :=
  (Ev.csLow :: Ev.delayMs 1 :: (func.1 ++ [Ev.delayMs 1, Ev.csHigh]), func.2)

/-- `Iterator::try_for_each` over bytes: run `f` on each byte in order,
stopping at the first error. -/
def tryForEach {E : Type} (f : Nat → List Ev × Except E Unit) :
    List Nat → List Ev × Except E Unit
  | [] => ([], Except.ok ())
  | b :: rest =>
    match f b with
    | (tr, Except.ok _) =>
        let r := tryForEach f rest
        (tr ++ r.1, r.2)
    | (tr, Except.error e) => (tr, Except.error e)

/-- Default `SpiProvider::write_command` (st7701.rs lines 48-50), resolved
against `ManualSpi`'s `while_cs`/`write_byte`. -/
def write_command (command : Nat) : List Ev × Except Infallible Unit :=
  while_cs (write_byte true command)

/-- Default `SpiProvider::write_data` (st7701.rs lines 52-54), resolved
against `ManualSpi`'s `while_cs`/`write_byte`. -/
def write_data (data : List Nat) : List Ev × Except Infallible Unit :=
  while_cs (tryForEach (fun byte => write_byte false byte) data)

end ManualSpi

/-- Number of chip-select assertions in a trace: high-to-low transitions of
the (active-low) chip-select line, starting from a given level
(`true` = high = deasserted). -/
def csAssertions : Bool → List Ev → Nat
  | _, [] => 0
  | cs, e :: r =>
    match e with
    | Ev.csLow => (if cs then 1 else 0) + csAssertions false r
    | Ev.csHigh => csAssertions true r
    | _ => csAssertions cs r

/-- Chip-select level after a trace has been replayed. -/
def finalCs : Bool → List Ev → Bool
  | cs, [] => cs
  | cs, e :: r =>
    match e with
    | Ev.csLow => finalCs false r
    | Ev.csHigh => finalCs true r
    | _ => finalCs cs r

/-- Whether an event touches the chip-select line. -/
def Ev.touchesCs : Ev → Bool
  | Ev.csLow => true
  | Ev.csHigh => true
  | _ => false

theorem csAssertions_of_noCs :
    ∀ (tr : List Ev) (cs0 : Bool) (rest : List Ev),
      (∀ e ∈ tr, e.touchesCs = false) →
      csAssertions cs0 (tr ++ rest) = csAssertions cs0 rest := by
  intro tr
  induction tr with
  | nil => intro cs0 rest _; rfl
  | cons e t ih =>
      intro cs0 rest h
      have he : e.touchesCs = false := h e (List.mem_cons_self e t)
      have ht : ∀ x ∈ t, x.touchesCs = false :=
        fun x hx => h x (List.mem_cons_of_mem e hx)
      cases e <;> simp [Ev.touchesCs] at he ⊢ <;>
        exact ih cs0 rest ht

theorem finalCs_of_noCs :
    ∀ (tr : List Ev) (cs0 : Bool) (rest : List Ev),
      (∀ e ∈ tr, e.touchesCs = false) →
      finalCs cs0 (tr ++ rest) = finalCs cs0 rest := by
  intro tr
  induction tr with
  | nil => intro cs0 rest _; rfl
  | cons e t ih =>
      intro cs0 rest h
      have he : e.touchesCs = false := h e (List.mem_cons_self e t)
      have ht : ∀ x ∈ t, x.touchesCs = false :=
        fun x hx => h x (List.mem_cons_of_mem e hx)
      cases e <;> simp [Ev.touchesCs] at he ⊢ <;>
        exact ih cs0 rest ht

theorem writeByteLoop_noCs :
    ∀ (n d : Nat), ∀ e ∈ writeByteLoop n d, Ev.touchesCs e = false := by
  intro n
  induction n with
  | zero => intro d e h; simp [writeByteLoop] at h
  | succ n ih =>
      intro d e h
      simp only [writeByteLoop, List.mem_cons] at h
      rcases h with rfl | rfl | rfl | rfl | h
      · rfl
      · rfl
      · split <;> rfl
      · rfl
      · exact ih _ e h

theorem writeByteTrace_noCs (ic : Bool) (b : Nat) :
    ∀ e ∈ writeByteTrace ic b, Ev.touchesCs e = false := by
  intro e h
  simp only [writeByteTrace, List.mem_cons, List.mem_append] at h
  rcases h with rfl | rfl | rfl | rfl | h | h
  · rfl
  · rfl
  · split <;> rfl
  · rfl
  · exact writeByteLoop_noCs _ _ e h
  · simp only [List.mem_cons, List.not_mem_nil, or_false] at h
    rcases h with rfl | rfl <;> rfl

theorem tryForEach_writeByte (ds : List Nat) :
    ManualSpi.tryForEach (fun byte => ManualSpi.write_byte false byte) ds
      = ((ds.map (fun b => writeByteTrace false b)).flatten, Except.ok ()) := by
  induction ds with
  | nil => rfl
  | cons b t ih =>
      have hstep : ManualSpi.tryForEach
            (fun byte => ManualSpi.write_byte false byte) (b :: t)
          = (writeByteTrace false b
              ++ (ManualSpi.tryForEach
                    (fun byte => ManualSpi.write_byte false byte) t).1,
             (ManualSpi.tryForEach
                (fun byte => ManualSpi.write_byte false byte) t).2) := rfl
      rw [hstep, ih]
      simp

/-- **C9.** The bit-banged transport's error type (`Infallible`) is
uninhabited, so `write_byte`, `write_command` and `write_data` on
`ManualSpi` always return success. -/
theorem manual_spi_never_errors :
    (∀ e : Infallible, False)
    ∧ (∀ (ic : Bool) (b : Nat), (ManualSpi.write_byte ic b).2 = Except.ok ())
    ∧ (∀ c : Nat, (ManualSpi.write_command c).2 = Except.ok ())
    ∧ (∀ ds : List Nat, (ManualSpi.write_data ds).2 = Except.ok ()) := by
  refine ⟨?_, ?_, ?_, ?_⟩
  · intro e
    exact nomatch e
  · intro ic b
    rfl
  · intro c
    rfl
  · intro ds
    rw [ManualSpi.write_data, tryForEach_writeByte]
    rfl

theorem join_writeByte_noCs (ds : List Nat) :
    ∀ e ∈ (ds.map (fun b => writeByteTrace false b)).flatten,
      Ev.touchesCs e = false := by
  intro e h
  rcases List.mem_flatten.mp h with ⟨l, hl, hel⟩
  rcases List.mem_map.mp hl with ⟨b, _, rfl⟩
  exact writeByteTrace_noCs false b e hel

/-- **C7.** A single bit-banged `write_data` call over N bytes performs
exactly one chip-select assertion spanning all of them: chip-select low, a
1 ms delay, the N byte traces (which never touch chip-select), another 1 ms
delay, chip-select high; and chip-select ends deasserted when the call
returns, from any prior level, with the call's result (always `Ok`)
returned unchanged. -/
theorem write_data_one_cs_span (ds : List Nat) (cs0 : Bool) :
    ManualSpi.write_data ds
      = (Ev.csLow :: Ev.delayMs 1 ::
          ((ds.map (fun b => writeByteTrace false b)).flatten
            ++ [Ev.delayMs 1, Ev.csHigh]),
         Except.ok ())
    ∧ csAssertions true (ManualSpi.write_data ds).1 = 1
    ∧ finalCs cs0 (ManualSpi.write_data ds).1 = true
    ∧ (∀ e ∈ (ds.map (fun b => writeByteTrace false b)).flatten,
        Ev.touchesCs e = false) := by
  have hjoin := join_writeByte_noCs ds
  have htr : ManualSpi.write_data ds
      = (Ev.csLow :: Ev.delayMs 1 ::
          ((ds.map (fun b => writeByteTrace false b)).flatten
            ++ [Ev.delayMs 1, Ev.csHigh]),
         Except.ok ()) := by
    simp [ManualSpi.write_data, ManualSpi.while_cs, tryForEach_writeByte]
  refine ⟨htr, ?_, ?_, hjoin⟩
  · rw [htr]
    show 1 + csAssertions false
        ((ds.map (fun b => writeByteTrace false b)).flatten
          ++ [Ev.delayMs 1, Ev.csHigh]) = 1
    rw [csAssertions_of_noCs _ false _ hjoin]
    rfl
  · rw [htr]
    show finalCs false
        ((ds.map (fun b => writeByteTrace false b)).flatten
          ++ [Ev.delayMs 1, Ev.csHigh]) = true
    rw [finalCs_of_noCs _ false _ hjoin]
    rfl

/-! ### The two-call scenario for the bit-banged transport -/

/-- `a?; b` — Rust `?`-sequencing of two transport calls. -/
def seqCalls {E : Type} (a b : List Ev × Except E Unit) :
    List Ev × Except E Unit :=
  match a with
  | (tr, Except.ok _) => (tr ++ b.1, b.2)
  | (tr, Except.error e) => (tr, Except.error e)

/-- `write_command(0x11)` immediately followed by `write_data(&[0xAA])` on
the bit-banged transport, not wrapped in any extra bracket. -/
def twoCalls : List Ev × Except Infallible Unit :=
  seqCalls (ManualSpi.write_command 0x11) (ManualSpi.write_data [0xAA])

/-- The same two calls wrapped in one `while_cs` bracket. -/
def twoCallsWrapped : List Ev × Except Infallible Unit :=
  ManualSpi.while_cs twoCalls

/-- **C8, counterexample.** Wrapping `write_command(0x11); write_data([0xAA])`
in one `while_cs` bracket does *not* keep chip-select asserted for the
entire two-call span: the wrapped trace starts by asserting chip-select
(its first event), yet after 44 of its 88 events — strictly inside the
span — chip-select is back high (deasserted), because `write_command`'s own
`while_cs` deasserts it; the wrapped span contains 2 separate assertions
rather than the single continuous one the claim requires. -/
theorem wrapped_span_not_continuously_asserted :
    twoCallsWrapped.1.head? = some Ev.csLow
    ∧ twoCallsWrapped.1.length = 88
    ∧ finalCs true (twoCallsWrapped.1.take 44) = true
    ∧ csAssertions true twoCallsWrapped.1 = 2
    ∧ csAssertions true twoCallsWrapped.1 ≠ 1 := by
  decide

/-- **C8, amended.** Unwrapped, `write_command(0x11)` followed by
`write_data([0xAA])` produces two separate chip-select assertions.  Wrapped
in one `while_cs` bracket, the span is still not continuously asserted: the
inner calls run their own assert/deassert cycles, so the wrapped trace also
contains 2 separate assertions, with chip-select deasserted between the two
calls; in both cases chip-select ends deasserted and the result is `Ok`. -/
theorem while_cs_grouping :
    csAssertions true twoCalls.1 = 2
    ∧ csAssertions true twoCallsWrapped.1 = 2
    ∧ finalCs true twoCalls.1 = true
    ∧ finalCs true twoCallsWrapped.1 = true
    ∧ twoCalls.2 = Except.ok ()
    ∧ twoCallsWrapped.2 = Except.ok () := by
  refine ⟨by decide, by decide, by decide, by decide, rfl, rfl⟩

/-! ### `St7701::reset` (st7701.rs lines 150-157) -/

/-- Events on the reset line. -/
inductive REv : Type
  | rstHigh
  | rstLow
  | rdelayMs (n : Nat)
deriving DecidableEq

/-- Trace of `St7701::reset`: `rst.set_high(); delay_ms(100); rst.set_low();
delay_ms(100); rst.set_high(); delay_ms(100)`. -/
def resetTrace : List REv :=
  [REv.rstHigh, REv.rdelayMs 100, REv.rstLow, REv.rdelayMs 100,
   REv.rstHigh, REv.rdelayMs 100]

/-- Decompose a reset-line trace into driven phases: each `set` event starts
a phase at that level, and the phase accumulates all delay milliseconds
until the next `set` event (the last phase's dwell runs to the end of
the trace). -/
def phasesAux : Bool → Nat → List REv → List (Bool × Nat)
  | l, d, [] => [(l, d)]
  | l, d, REv.rdelayMs n :: r => phasesAux l (d + n) r
  | l, d, REv.rstHigh :: r => (l, d) :: phasesAux true 0 r
  | l, d, REv.rstLow :: r => (l, d) :: phasesAux false 0 r

/-- Phases of a trace (delays before the first `set` event carry no driven
level and are skipped). -/
def phases : List REv → List (Bool × Nat)
  | [] => []
  | REv.rstHigh :: r => phasesAux true 0 r
  | REv.rstLow :: r => phasesAux false 0 r
  | REv.rdelayMs _ :: r => phases r

/-- **C5.** `reset` drives the reset line through exactly the phase sequence
High (100 ms), Low (100 ms), High (100 ms): each level is held 100 ms — in
particular at least 100 ms — before the next transition, including a 100 ms
dwell after the final High before `reset` returns. -/
theorem reset_phase_sequence :
    phases resetTrace = [(true, 100), (false, 100), (true, 100)]
    ∧ ∀ p ∈ phases resetTrace, 100 ≤ p.2 := by
  refine ⟨by decide, by decide⟩

/-! ### `St7701::init` (st7701.rs lines 159-290)

`init` first calls `reset`, then issues a fixed script of writes, each with
the `?` operator: a failing write returns its error immediately and issues
no further writes.  The transport is abstracted by a fault oracle `fail`
giving, for the k-th write call (0-based), the error it reports, if any —
for the real `ManualSpi` transport the error type is uninhabited so the
oracle is constantly `none`. -/

/-- One scripted write: a command opcode or a data block. -/
inductive W : Type
  | cmd (opcode : Nat)
  | dat (params : List Nat)
deriving DecidableEq

/-- The scripted writes of `St7701::init`, in source order (the panel's
vendor register map, st7701.rs lines 162-285). -/
def initScript : List W :=
  [W.cmd 0xFF, W.dat [0x77, 0x01, 0x00, 0x00, 0x10],
   W.cmd 0xC0, W.dat [0x3B, 0x00],
   W.cmd 0xC1, W.dat [0x0B, 0x02],
   W.cmd 0xC2, W.dat [0x00, 0x02],
   W.cmd 0xCC, W.dat [0x10],
   W.cmd 0xCD, W.dat [0x08],
   W.cmd 0xB0, W.dat [0x02, 0x13, 0x1B, 0x0D, 0x10, 0x05, 0x08, 0x07, 0x07,
                      0x24, 0x04, 0x11, 0x0E, 0x2C, 0x33, 0x1D],
   W.cmd 0xB1, W.dat [0x05, 0x13, 0x1B, 0x0D, 0x11, 0x05, 0x08, 0x07, 0x07,
                      0x24, 0x04, 0x11, 0x0E, 0x2C, 0x33, 0x1D],
   W.cmd 0xFF, W.dat [0x77, 0x01, 0x00, 0x00, 0x11],
   W.cmd 0xB0, W.dat [0x5D],
   W.cmd 0xB1, W.dat [0x43],
   W.cmd 0xB2, W.dat [0x81],
   W.cmd 0xB3, W.dat [0x80],
   W.cmd 0xB5, W.dat [0x43],
   W.cmd 0xB7, W.dat [0x85],
   W.cmd 0xB8, W.dat [0x20],
   W.cmd 0xC1, W.dat [0x78],
   W.cmd 0xC2, W.dat [0x78],
   W.cmd 0xD0, W.dat [0x88],
   W.cmd 0xE0, W.dat [0x00, 0x00, 0x02],
   W.cmd 0xE1, W.dat [0x03, 0xA0, 0x00, 0x00, 0x04, 0xA0, 0x00, 0x00, 0x00,
                      0x20, 0x20],
   W.cmd 0xE2, W.dat [0x00, 0x00, 0x00, 0x00, 0x00, 0x00, 0x00, 0x00, 0x00,
                      0x00, 0x00, 0x00, 0x00],
   W.cmd 0xE3, W.dat [0x00, 0x00, 0x11, 0x00],
   W.cmd 0xE4, W.dat [0x22, 0x00],
   W.cmd 0xE5, W.dat [0x05, 0xEC, 0xA0, 0xA0, 0x07, 0xEE, 0xA0, 0xA0, 0x00,
                      0x00, 0x00, 0x00, 0x00, 0x00, 0x00, 0x00],
   W.cmd 0xE6, W.dat [0x00, 0x00, 0x11, 0x00],
   W.cmd 0xE7, W.dat [0x22, 0x00],
   W.cmd 0xE8, W.dat [0x06, 0xED, 0xA0, 0xA0, 0x08, 0xEF, 0xA0, 0xA0, 0x00,
                      0x00, 0x00, 0x00, 0x00, 0x00, 0x00, 0x00],
   W.cmd 0xEB, W.dat [0x00, 0x00, 0x40, 0x40, 0x00, 0x00, 0x00],
   W.cmd 0xED, W.dat [0xFF, 0xFF, 0xFF, 0xBA, 0x0A, 0xBF, 0x45, 0xFF, 0xFF,
                      0x54, 0xFB, 0xA0, 0xAB, 0xFF, 0xFF, 0xFF],
   W.cmd 0xEF, W.dat [0x10, 0x0D, 0x04, 0x08, 0x3F, 0x1F],
   W.cmd 0xFF, W.dat [0x77, 0x01, 0x00, 0x00, 0x13],
   W.cmd 0xEF, W.dat [0x08],
   W.cmd 0xFF, W.dat [0x77, 0x01, 0x00, 0x00, 0x00],
   W.cmd 0x36, W.dat [0x08],
   W.cmd 0x3A, W.dat [0x60],
   W.cmd 0x11,
   W.cmd 0x29]

/-- Run a write script against a fault oracle, starting at write index `k`:
issue each write in order; if the oracle faults write `k + i`, stop there.
Returns the list of writes actually issued and the overall result. -/
def runScript {E : Type} (fail : Nat → Option E) :
    Nat → List W → List W × Except E Unit
  | _, [] => ([], Except.ok ())
  | k, w :: rest =>
    match fail k with
    | some e => ([w], Except.error e)
    | none =>
        let r := runScript fail (k + 1) rest
        (w :: r.1, r.2)

/-- The write sequence of `St7701::init` against a fault oracle: the
scripted writes issued (in order) and the propagated result. -/
def initWrites {E : Type} (fail : Nat → Option E) : List W × Except E Unit :=
  runScript fail 0 initScript

theorem runScript_aborts {E : Type} (fail : Nat → Option E) :
    ∀ (script : List W) (k j : Nat) (e : E),
      j < script.length →
      fail (k + j) = some e →
      (∀ i, i < j → fail (k + i) = none) →
      runScript fail k script = (script.take (j + 1), Except.error e) := by
  intro script
  induction script with
  | nil =>
      intro k j e hj _ _
      exact absurd hj (by simp)
  | cons w rest ih =>
      intro k j e hj hfail hpre
      cases j with
      | zero =>
          rw [runScript]
          rw [show fail k = some e from hfail]
          rfl
      | succ j' =>
          have h0 : fail k = none := by
            have := hpre 0 (Nat.succ_pos j')
            simpa using this
          rw [runScript, h0]
          have hj' : j' < rest.length := by
            simpa [Nat.succ_lt_succ_iff] using hj
          have hfail' : fail (k + 1 + j') = some e := by
            rw [show k + 1 + j' = k + (j' + 1) by omega]
            exact hfail
          have hpre' : ∀ i, i < j' → fail (k + 1 + i) = none := by
            intro i hi
            rw [show k + 1 + i = k + (i + 1) by omega]
            exact hpre (i + 1) (by omega)
          rw [ih (k + 1) j' e hj' hfail' hpre']
          rfl

theorem runScript_ok {E : Type} (fail : Nat → Option E) :
    ∀ (script : List W) (k : Nat),
      (∀ i, i < script.length → fail (k + i) = none) →
      runScript fail k script = (script, Except.ok ()) := by
  intro script
  induction script with
  | nil =>
      intro k _
      rfl
  | cons w rest ih =>
      intro k h
      have h0 : fail k = none := by simpa using h 0 (by simp)
      rw [runScript, h0, ih (k + 1)]
      intro i hi
      rw [show k + 1 + i = k + (i + 1) by omega]
      exact h (i + 1) (by simpa [Nat.succ_lt_succ_iff] using hi)

/-- **C4.** `St7701::init` issues its scripted writes strictly in order and
aborts at the first failing write: if the oracle faults write `j` (0-based)
and no earlier write, exactly the first `j + 1` scripted writes are issued
— none after the failing one — and the returned error is the failing
write's error, unchanged.  (If no write faults, all writes are issued in
script order and the result is `Ok`.) -/
theorem init_aborts_on_first_failure {E : Type} (fail : Nat → Option E)
    (j : Nat) (e : E)
    (hj : j < initScript.length)
    (hfail : fail j = some e)
    (hpre : ∀ i, i < j → fail i = none) :
    initWrites fail = (initScript.take (j + 1), Except.error e)
    ∧ ∀ good : Nat → Option E, (∀ i, good i = none) →
        initWrites good = (initScript, Except.ok ()) := by
  constructor
  · have := runScript_aborts fail initScript 0 j e hj (by simpa using hfail)
      (fun i hi => by simpa using hpre i hi)
    exact this
  · intro good hgood
    exact runScript_ok good initScript 0 (fun i _ => hgood (0 + i))

/-- Witness for C4: with a fault injected at write index 2 (the opcode
`0xC0`, the 3rd write) and error value `5`, `init` issues exactly the first
3 scripted writes and returns `error 5`; a fault-free oracle issues the
whole script. -/
theorem init_aborts_witness :
    2 < initScript.length
    ∧ (fun k => if k == 2 then (some 5 : Option Nat) else none) 2 = some 5
    ∧ initWrites (fun k => if k == 2 then (some 5 : Option Nat) else none)
        = (initScript.take 3, Except.error 5) := by
  refine ⟨by decide, by decide, ?_⟩
  exact (init_aborts_on_first_failure
      (fun k => if k == 2 then (some 5 : Option Nat) else none) 2 5
      (by decide) (by decide)
      (by intro i hi; interval_cases i <;> decide)).1

/-! ### PixelStreamBuffer (`DmaTxStreamBuf`, `mod dma`) -/

/-- Modelled from the spec: main.rs declares `mod dma;` and pushes pixel
bytes through `crate::dma::DmaTxStreamBuf`, but `src/dma.rs` itself is not
among the sources.  Following the spec (§2, §3, §4.3): a fixed storage
capacity, a count of unconsumed bytes (the gap between the software write
cursor and the DMA read cursor) and a write cursor kept within
`[0, capacity)` modulo capacity. -/
structure RingBuffer where
  capacity : Nat
  used : Nat
  writePos : Nat

/-- Free space currently available for `push`. -/
def RingBuffer.free (rb : RingBuffer) : Nat :=
  rb.capacity - rb.used

/-- Modelled from the spec: `push(bytes) -> count_accepted` "copies as many
leading bytes as fit into currently-free ring buffer space ... and returns
how many were actually accepted; never blocks, never fails, silently clips
when full" — a total function accepting `min (length bytes) free` bytes and
advancing the write cursor by that amount modulo capacity. -/
def RingBuffer.push (rb : RingBuffer) (bytes : List Nat) :
    RingBuffer × Nat :=
  let accepted := min bytes.length rb.free
  ({ rb with
      used := rb.used + accepted,
      writePos := (rb.writePos + accepted) % rb.capacity },
   accepted)

/-- A freshly created, empty buffer of capacity `M`. -/
def RingBuffer.emptyBuf (M : Nat) : RingBuffer :=
  ⟨M, 0, 0⟩

/-- **C6.** `push` never blocks and never fails (it is a total function
returning a count): on an empty buffer of capacity `M`, pushing `N ≤ M`
bytes returns `N` and pushing `N > M` bytes returns `M`; pushing into a
full buffer returns `0`; and in general `push` returns
`min (length bytes) free`, the number of leading bytes copied into free
space. -/
theorem ring_buffer_push_clips (M : Nat) (bytes : List Nat)
    (rb : RingBuffer) (hfull : rb.used = rb.capacity) :
    ((RingBuffer.emptyBuf M).push bytes).2 = min bytes.length M
    ∧ (bytes.length ≤ M → ((RingBuffer.emptyBuf M).push bytes).2 = bytes.length)
    ∧ (M < bytes.length → ((RingBuffer.emptyBuf M).push bytes).2 = M)
    ∧ (rb.push bytes).2 = 0
    ∧ (∀ rb2 : RingBuffer, (rb2.push bytes).2 = min bytes.length rb2.free) := by
  have hgen : ∀ rb2 : RingBuffer,
      (rb2.push bytes).2 = min bytes.length rb2.free := by
    intro rb2
    rfl
  have hempty : (RingBuffer.emptyBuf M).free = M := by
    simp [RingBuffer.emptyBuf, RingBuffer.free]
  refine ⟨?_, ?_, ?_, ?_, hgen⟩
  · rw [hgen, hempty]
  · intro h
    rw [hgen, hempty]
    omega
  · intro h
    rw [hgen, hempty]
    omega
  · rw [hgen]
    have : rb.free = 0 := by
      simp [RingBuffer.free, hfull]
    omega

/-- Witness for C6: capacity 4, pushing 6 bytes into the empty buffer
accepts 4; pushing into the full buffer `⟨4, 4, 0⟩` accepts 0. -/
theorem ring_buffer_push_witness :
    (⟨4, 4, 0⟩ : RingBuffer).used = (⟨4, 4, 0⟩ : RingBuffer).capacity
    ∧ (((RingBuffer.emptyBuf 4).push [1, 2, 3, 4, 5, 6]).2
        = min ([1, 2, 3, 4, 5, 6] : List Nat).length 4
       ∧ (([1, 2, 3, 4, 5, 6] : List Nat).length ≤ 4 →
           ((RingBuffer.emptyBuf 4).push [1, 2, 3, 4, 5, 6]).2
             = ([1, 2, 3, 4, 5, 6] : List Nat).length)
       ∧ (4 < ([1, 2, 3, 4, 5, 6] : List Nat).length →
           ((RingBuffer.emptyBuf 4).push [1, 2, 3, 4, 5, 6]).2 = 4)
       ∧ ((⟨4, 4, 0⟩ : RingBuffer).push [1, 2, 3, 4, 5, 6]).2 = 0
       ∧ (∀ rb2 : RingBuffer,
           (rb2.push [1, 2, 3, 4, 5, 6]).2
             = min ([1, 2, 3, 4, 5, 6] : List Nat).length rb2.free)) :=
  ⟨rfl, ring_buffer_push_clips 4 [1, 2, 3, 4, 5, 6] ⟨4, 4, 0⟩ rfl⟩

end St7701
